import Mathlib

/-!
Verification of the ray-tracing geometry core of the vernon repository
(`pylib/geometry.py`) and its image-access layer (`vernon/integrate.py`)
against its natural-language specification.

The embedding is shallow: floating-point numbers are modelled as elements of
a linear ordered field (instantiated at `ℝ` for the claim statements and at
`ℚ` for concrete executable counterexamples), numpy array expressions become
`List` operations or pointwise functions, and external collaborators
(the particle distribution, the scipy `brentq` root finder, the synchrotron
coefficient calculator) are opaque function parameters, exactly as the spec
declares them out of scope.
-/

namespace Vernon

/-! ## Adaptive ray sampling (`FormalRayTracer._sample_ray`, geometry.py:975-1068)

The dynamic stepping loop walks a coordinate `z` from `z0` while `z <= z1`,
storing each visited `z`.  The step is
`dz = max(min(min(dx(z)/radius, max_step_size), z1 - z), min_step_size)`
with `max_step_size = (z1-z0)/min_n_pts` and `min_step_size = 1e-5*(z1-z0)`.
The quantity `dx(z) = max_dxlam1 / lam1(z)` comes from the synchrotron
coefficients at `z`; it is kept as an opaque function parameter `dx`.

The Python loop needs no fuel; here the recursion carries a fuel argument
`sampleFuel = 100002`, which is provably sufficient for every `z0 < z1`
because each step advances `z` by at least `min_step_size = (z1-z0)/100000`.
The recursion is written with a bare `Nat.rec` so that it unfolds lazily and
kernel-evaluates on concrete rational inputs.
-/

/-- Number of points used to size the maximum step (`FormalRayTracer.min_n_pts`). -/
def min_n_pts : ℕ := 200

/-- Fuel for the sampling loop: one more than the worst-case number of
minimum-size steps (`1e5`) plus the final sample, always sufficient. -/
def sampleFuel : ℕ := 100002

/-- One step size of the adaptive sampler:
`dz = dx(z)/radius`, clipped above by `maxStep` and by the remaining distance
`z1 - z`, then floored by `minStep` (geometry.py:1032-1035). -/
def formalStep {α : Type} [LinearOrderedField α]
    (dx : α → α) (radius z1 maxStep minStep z : α) : α :=
  max (min (min (dx z / radius) maxStep) (z1 - z)) minStep

/-- The sampling loop of `FormalRayTracer._sample_ray`: visit `z`, store it
while `z <= z1`, and advance by `formalStep` (geometry.py:1006-1052).  Written
with `Nat.rec` on the fuel so that it reduces lazily in the kernel. -/
def sampleZsAux {α : Type} [LinearOrderedField α]
    (dx : α → α) (radius z1 maxStep minStep : α) (fuel : ℕ) : α → List α :=
  Nat.rec (motive := fun _ => α → List α)
    (fun _ => [])
    (fun _ ih z =>
      if z ≤ z1 then
        z :: ih (z + formalStep dx radius z1 maxStep minStep z)
      else [])
    fuel

/-- The stored `z` samples of one adaptive-strategy ray between refined
bounds `z0` and `z1` (geometry.py:1000-1054). -/
def formalSampleZs {α : Type} [LinearOrderedField α]
    (dx : α → α) (radius z0 z1 : α) : List α :=
  sampleZsAux dx radius z1 ((z1 - z0) / (min_n_pts : α))
    ((1 / 100000) * (z1 - z0)) sampleFuel z0

/-- Path-length array of a formally sampled ray:
`s = (z - z[0]) * radius` (geometry.py:1057). -/
def formalS {α : Type} [LinearOrderedField α] (radius : α) (zs : List α) : List α :=
  zs.map (fun w => (w - zs.headD 0) * radius)

/-! ## Fixed-count sampling (`BasicRayTracer._sample_ray`, `Ray.__init__`) -/

/-- Fixed sample count of the basic tracer (`BasicRayTracer.nsamps`). -/
def nsamps : ℕ := 300

/-- Model of `np.linspace(z0, z1, n)`: `n` evenly spaced points from `z0` to
`z1`, endpoints included. -/
def linspace {α : Type} [LinearOrderedField α] (z0 z1 : α) (n : ℕ) : List α :=
  (List.range n).map fun (i : ℕ) => z0 + (Nat.cast i * (z1 - z0)) / ((n : α) - 1)

/-- Model of `np.min` on a (nonempty) array; returns `0` on the empty list,
which never occurs on the paths we verify. -/
def arrMin {α : Type} [LinearOrderedField α] : List α → α
  | [] => 0
  | x :: xs => xs.foldl min x

/-- Model of `np.max` on a (nonempty) array. -/
def arrMax {α : Type} [LinearOrderedField α] : List α → α
  | [] => 0
  | x :: xs => xs.foldl max x

/-- Path-length array of a basic ray: `s = (z - z.min()) * radius`
(geometry.py:1146). -/
def basicS {α : Type} [LinearOrderedField α] (radius : α) (zs : List α) : List α :=
  zs.map (fun w => (w - arrMin zs) * radius)

/-! ## Coordinate transforms (geometry.py:19-115)

These are real-valued; `np.arctan2` is not in Mathlib, so it is defined here
with the exact branch structure of the C implementation numpy wraps
(quadrant corrections of `arctan`, `atan2 0 0 = 0`). -/

/-- Model of `np.arctan2 y x`. -/
noncomputable def atan2 (y x : ℝ) : ℝ :=
  if 0 < x then Real.arctan (y / x)
  else if x < 0 ∧ 0 ≤ y then Real.arctan (y / x) + Real.pi
  else if x < 0 ∧ y < 0 then Real.arctan (y / x) - Real.pi
  else if x = 0 ∧ 0 < y then Real.pi / 2
  else if x = 0 ∧ y < 0 then -(Real.pi / 2)
  else 0

/-- The guard radius of `cart_to_sph`: `1e-10` (geometry.py:39). -/
noncomputable def rGuard : ℝ := 1 / 10 ^ 10

/-- Model of `cart_to_sph` (geometry.py:19-41):
`r = ‖(x,y,z)‖`, `lat = arcsin(clip(z / max(r, 1e-10), -1, 1))`,
`lon = atan2 y x`. -/
noncomputable def cart_to_sph (x y z : ℝ) : ℝ × ℝ × ℝ :=
  let r := Real.sqrt (x ^ 2 + y ^ 2 + z ^ 2)
  let lat := Real.arcsin (min (max (z / max r rGuard) (-1)) 1)
  let lon := atan2 y x
  (lat, lon, r)

/-- Model of `sph_to_cart` (geometry.py:44-64). -/
noncomputable def sph_to_cart (lat lon r : ℝ) : ℝ × ℝ × ℝ :=
  (r * Real.cos lat * Real.cos lon, r * Real.cos lat * Real.sin lon,
    r * Real.sin lat)

/-- Model of `rot2d` (geometry.py:103-115). -/
noncomputable def rot2d (u v theta : ℝ) : ℝ × ℝ :=
  (Real.cos theta * u + -Real.sin theta * v,
    Real.sin theta * u + Real.cos theta * v)

/-! ## The tilted dipole field (geometry.py:318-399) -/

/-- Model of `TiltedDipoleField._to_dc` (geometry.py:353-369): Cartesian
round trip through a rotation by `tilt` in the (x,z) plane. -/
noncomputable def tdf_to_dc (tilt bc_lat bc_lon bc_r : ℝ) : ℝ × ℝ × ℝ :=
  let v := sph_to_cart bc_lat bc_lon bc_r
  let ctilt := Real.cos tilt
  let stilt := Real.sin tilt
  let zprime := ctilt * v.2.2 + stilt * v.1
  let xprime := -stilt * v.2.2 + ctilt * v.1
  cart_to_sph xprime v.2.1 zprime

/-- Model of `TiltedDipoleField._from_dc` (geometry.py:372-385): the same
rotation with `-tilt`. -/
noncomputable def tdf_from_dc (tilt dc_lat dc_lon dc_r : ℝ) : ℝ × ℝ × ℝ :=
  let v := sph_to_cart dc_lat dc_lon dc_r
  let ctilt := Real.cos (-tilt)
  let stilt := Real.sin (-tilt)
  let zprime := ctilt * v.2.2 + stilt * v.1
  let xprime := -stilt * v.2.2 + ctilt * v.1
  cart_to_sph xprime v.2.1 zprime

/-- Model of `TiltedDipoleField.__call__` (geometry.py:388-399):
magnetic coordinates `(mlat, mlon, L)` with `L = dc_r / cos(dc_lat)^2`. -/
noncomputable def tdf_call (tilt bc_lat bc_lon bc_r : ℝ) : ℝ × ℝ × ℝ :=
  let m := tdf_to_dc tilt bc_lat bc_lon bc_r
  (m.1, m.2.1, m.2.2 / Real.cos m.1 ^ 2)

/-- Round trip `_from_dc(_to_dc(lat, lon, r))` used by the spec property. -/
noncomputable def tdf_round_trip (tilt lat lon r : ℝ) : ℝ × ℝ × ℝ :=
  let m := tdf_to_dc tilt lat lon r
  tdf_from_dc tilt m.1 m.2.1 m.2.2

/-! ## Constructor validation (geometry.py:150-158, 345-350) -/

/-- Configuration errors raised at construction time, carrying the offending
value like the Python `ValueError` message does. -/
inductive CfgError where
  | badLoc (loc : ℝ)
  | badTilt (tilt : ℝ)

/-- The stored state of an `ObserverToBodycentric` instance. -/
structure ObserverToBodycentric where
  loc : ℝ
  cml : ℝ

/-- The stored state of a `TiltedDipoleField` instance. -/
structure TiltedDipoleField where
  tilt : ℝ
  moment : ℝ

/-- Model of `ObserverToBodycentric.__init__` (geometry.py:150-158): reject
`loc` outside `[0, pi/2]`, store `loc` unchanged and `cml` normalized by the
external `pwkit.astutil.angcen`, passed in as the opaque `angcen`. -/
noncomputable def mkObserverToBodycentric (angcen : ℝ → ℝ) (loc cml : ℝ) :
    Except CfgError ObserverToBodycentric :=
  if loc < 0 ∨ loc > Real.pi / 2 then Except.error (CfgError.badLoc loc)
  else Except.ok ⟨loc, angcen cml⟩

/-- Model of `TiltedDipoleField.__init__` (geometry.py:345-350): reject
`tilt` outside `[0, pi)`, store `tilt` and `moment` unchanged. -/
noncomputable def mkTiltedDipoleField (tilt moment : ℝ) :
    Except CfgError TiltedDipoleField :=
  if tilt < 0 ∨ Real.pi ≤ tilt then Except.error (CfgError.badTilt tilt)
  else Except.ok ⟨tilt, moment⟩

/-! ## Ray construction (`BasicRayTracer.create_ray`, geometry.py:858-968)

The density along the ray is the composite
`z ↦ distrib.get_samples(bfield(o2b(x,y,z)), just_ne=True)[0]`; the particle
distribution is an external collaborator, so the whole composite is the
opaque parameter `ne`.  The scipy Brent root finder is the opaque parameter
`brentq`, returning the root estimate and the convergence flag of
`full_output`.  The strategy-specific `_sample_ray` is the opaque `sampler`.
The distribution parameter arrays are those of the torus and washer
distributions, `parameter_names = [n_e, p]`. -/

/-- A Z coordinate well behind the object (`BasicRayTracer.way_back_z`). -/
noncomputable def way_back_z : ℝ := -15

/-- A Z coordinate well in front of the object (`BasicRayTracer.way_front_z`). -/
noncomputable def way_front_z : ℝ := 15

/-- Rays from the surface start this far above it
(`BasicRayTracer.surface_delta_radius`). -/
noncomputable def surface_delta_radius : ℝ := 3 / 100

/-- Coarse search step along z (`BasicRayTracer.delta_z`). -/
noncomputable def delta_z : ℝ := 1

/-- Model of `np.arange(z0, z1, step)` for positive step:
`ceil((z1 - z0)/step)` samples `z0 + i * step`. -/
noncomputable def arange (z0 z1 step : ℝ) : List ℝ :=
  (List.range ⌈(z1 - z0) / step⌉₊).map fun (i : ℕ) => z0 + Nat.cast i * step

/-- The fatal per-ray errors of `create_ray` (geometry.py:946, 958),
carrying the two values the `RuntimeError` message formats: the root
estimate the root finder returned (the reassigned bound) and the inner
bracket `zstart` taken from the coarse grid. -/
inductive RayError where
  | noStartPoint (root zstart : ℝ)
  | noEndPoint (root zstart : ℝ)

/-- Claim-relevant per-sample arrays of a `Ray` (geometry.py:1071-1164).
The body-centric and magnetic coordinate arrays `bc`/`mc` also stored on the
Python object are not modelled: no claim mentions them. -/
structure Ray where
  x : ℝ
  y : ℝ
  z : List ℝ
  s : List ℝ
  theta : List ℝ
  B : List ℝ
  psi : List ℝ
  n_e : List ℝ
  p : List ℝ

/-- Model of `Ray.__init__` with `zeros=True` (geometry.py:1137-1156):
`s = (z - z.min()) * radius` and every derived array zero. -/
noncomputable def mkZerosRay (x y : ℝ) (zs : List ℝ) (radius : ℝ) : Ray :=
  { x := x
    y := y
    z := zs
    s := basicS radius zs
    theta := List.replicate zs.length 0
    B := List.replicate zs.length 0
    psi := List.replicate zs.length 0
    n_e := List.replicate zs.length 0
    p := List.replicate zs.length 0 }

/-- The starting z of a ray at observer pixel `(x, y)` (geometry.py:907-912):
just above the surface when inside the projected disk, else far behind. -/
noncomputable def startZ (x y : ℝ) : ℝ :=
  if x ^ 2 + y ^ 2 ≤ 1 then
    Real.sqrt ((1 + surface_delta_radius) ^ 2 - (x ^ 2 + y ^ 2))
  else way_back_z

open scoped Classical in
/-- The coarse-grid z samples whose density exceeds the cutoff
(`zsamps[nesamps > ne0_cutoff]`, geometry.py:943/955). -/
noncomputable def aboveCutoff (ne : ℝ → ℝ) (cutoff : ℝ) (zs : List ℝ) : List ℝ :=
  zs.filter fun z => ne z > cutoff

open scoped Classical in
/-- Model of `BasicRayTracer.create_ray` (geometry.py:892-963): coarse
density search, empty-ray early return, Brent refinement of both bounds with
fatal errors on non-convergence, then strategy sampling. -/
noncomputable def createRay (ne : ℝ → ℝ) (cutoff : ℝ)
    (brentq : ℝ → ℝ → ℝ × Bool) (sampler : ℝ → ℝ → Ray)
    (radius x y : ℝ) : Except RayError Ray :=
  let z0 := startZ x y
  let z1 := way_front_z
  let zsamps := arange z0 z1 delta_z
  let nesamps := zsamps.map ne
  if ¬ ∃ v ∈ nesamps, v > cutoff then
    Except.ok (mkZerosRay x y (linspace z0 z1 2) radius)
  else
    let refineStart : Except RayError ℝ :=
      if nesamps.headD 0 < cutoff then
        let zstart := arrMin (aboveCutoff ne cutoff zsamps)
        let res := brentq z0 zstart
        if res.2 then Except.ok res.1
        else Except.error (RayError.noStartPoint res.1 zstart)
      else Except.ok z0
    let refineEnd : Except RayError ℝ :=
      if nesamps.getLastD 0 < cutoff then
        let zend := arrMax (aboveCutoff ne cutoff zsamps)
        let res := brentq z1 zend
        if res.2 then Except.ok res.1
        else Except.error (RayError.noEndPoint res.1 zend)
      else Except.ok z1
    do
      let a ← refineStart
      let b ← refineEnd
      Except.ok (sampler a b)

/-! ## Lazy radiative-transfer coefficients (`Ray.ensure_rt_coeffs`,
geometry.py:1235-1246)

The synchrotron calculator is opaque; `P` is the type of the sample-local
physical state it consumes (frequency, B, n_e, theta, psi, extras) and
`J`, `A`, `R` the types of the three coefficient arrays. -/

/-- The mutable coefficient state of a `Ray`: the physical inputs plus the
three lazily filled arrays. -/
structure RayRT (P J A R : Type) where
  phys : P
  j : Option J
  alpha : Option A
  rho : Option R

/-- Model of `Ray.ensure_rt_coeffs`: fill `(j, alpha, rho)` from the
calculator only when `j is None`, otherwise return the ray unchanged. -/
def ensure_rt_coeffs {P J A R : Type} (synch_calc : P → J × A × R)
    (ray : RayRT P J A R) : RayRT P J A R :=
  match ray.j with
  | none =>
    let c := synch_calc ray.phys
    { ray with j := some c.1, alpha := some c.2.1, rho := some c.2.2 }
  | some _ => ray

/-! ## Stokes selectors (`IntegratedImages.frame` / `.flux`,
integrate.py:146-235)

An image plane is a pointwise pixel map `Fin npix → ℝ` (numpy elementwise
array semantics); the numeric accessor `nf : ℕ → Fin npix → ℝ` is the
`stokesset`-backed integer-index path of `frame`, kept opaque.  `nansum`
over finite real-valued planes is the plain sum. -/

/-- ASCII lowercasing of one character, the case arising in selector
strings (`str.lower()` in the source). -/
def charLower (c : Char) : Char :=
  if 'A' ≤ c ∧ c ≤ 'Z' then Char.ofNat (c.toNat + 32) else c

/-- Model of the Python `str.lower()` used by the selector dispatch. -/
def strLower (s : String) : String :=
  ⟨s.data.map charLower⟩

/-- Errors raised by the textual selector dispatch, carrying the lowercased
offending value like the Python `ValueError` message. -/
inductive StokesError where
  | unrecognized (value : String)
  deriving DecidableEq

/-- The recognized textual Stokes selectors, after lowercasing. -/
def recognizedStokes : List String := ["i", "q", "u", "v", "absv", "l", "fl", "fc"]

open scoped Classical in
/-- Model of the textual-selector branch of `IntegratedImages.frame`
(integrate.py:166-199), including the masked division used by the
fractional-polarization planes. -/
noncomputable def frameStr {npix : ℕ} (nf : ℕ → Fin npix → ℝ) (sel : String) :
    Except StokesError (Fin npix → ℝ) :=
  let s := strLower sel
  if s = "i" then Except.ok (nf 0)
  else if s = "q" then Except.ok (nf 1)
  else if s = "u" then Except.ok (nf 2)
  else if s = "v" then Except.ok (nf 3)
  else if s = "absv" then Except.ok (fun px => |nf 3 px|)
  else if s = "l" then
    Except.ok (fun px => Real.sqrt (nf 1 px ^ 2 + nf 2 px ^ 2))
  else if s = "fl" then
    let i := nf 0
    let iPatched := fun px => if i px = 0 then 1 else i px
    let fl := fun px => Real.sqrt (nf 1 px ^ 2 + nf 2 px ^ 2) / iPatched px
    Except.ok (fun px => if i px = 0 then 0 else fl px)
  else if s = "fc" then
    let i := nf 0
    let iPatched := fun px => if i px = 0 then 1 else i px
    let fc := fun px => nf 3 px / iPatched px
    Except.ok (fun px => if i px = 0 then 0 else fc px)
  else Except.error (StokesError.unrecognized s)

open scoped Classical in
/-- Model of the textual-selector branch of `IntegratedImages.flux`
(integrate.py:202-235); the integer path is `nansum(frame(...))`. -/
noncomputable def fluxStr {npix : ℕ} (nf : ℕ → Fin npix → ℝ) (sel : String) :
    Except StokesError ℝ :=
  let fluxNum := fun (k : ℕ) => ∑ px, nf k px
  let s := strLower sel
  if s = "i" then Except.ok (fluxNum 0)
  else if s = "q" then Except.ok (fluxNum 1)
  else if s = "u" then Except.ok (fluxNum 2)
  else if s = "v" then Except.ok (fluxNum 3)
  else if s = "absv" then Except.ok |fluxNum 3|
  else if s = "l" then
    Except.ok (Real.sqrt (fluxNum 1 ^ 2 + fluxNum 2 ^ 2))
  else if s = "fl" then
    if fluxNum 0 = 0 then Except.ok 0
    else Except.ok (Real.sqrt (fluxNum 1 ^ 2 + fluxNum 2 ^ 2) / fluxNum 0)
  else if s = "fc" then
    if fluxNum 0 = 0 then Except.ok 0
    else Except.ok (fluxNum 3 / fluxNum 0)
  else Except.error (StokesError.unrecognized s)

/-! ### Unfolding lemmas for the sampler -/

theorem sampleZsAux_zero {α : Type} [LinearOrderedField α]
    (dx : α → α) (radius z1 maxStep minStep : α) (z : α) :
    sampleZsAux dx radius z1 maxStep minStep 0 z = [] := rfl

theorem sampleZsAux_succ {α : Type} [LinearOrderedField α]
    (dx : α → α) (radius z1 maxStep minStep : α) (fuel : ℕ) (z : α) :
    sampleZsAux dx radius z1 maxStep minStep (fuel + 1) z =
      if z ≤ z1 then
        z :: sampleZsAux dx radius z1 maxStep minStep fuel
          (z + formalStep dx radius z1 maxStep minStep z)
      else [] := rfl

/-- Each adaptive step lies between the minimum and maximum step sizes,
as long as the minimum does not exceed the maximum. -/
theorem formalStep_bounds {α : Type} [LinearOrderedField α]
    (dx : α → α) (radius z1 maxStep minStep z : α) (h : minStep ≤ maxStep) :
    minStep ≤ formalStep dx radius z1 maxStep minStep z ∧
      formalStep dx radius z1 maxStep minStep z ≤ maxStep := by
  constructor
  · exact le_max_right _ _
  · apply max_le _ h
    exact le_trans (min_le_left _ _) (min_le_right _ _)

/-- The sampler output is either empty or starts exactly at its start point. -/
theorem sampleZsAux_head {α : Type} [LinearOrderedField α]
    (dx : α → α) (radius z1 maxStep minStep : α) (fuel : ℕ) (z : α) :
    sampleZsAux dx radius z1 maxStep minStep fuel z = [] ∨
      ∃ t, sampleZsAux dx radius z1 maxStep minStep fuel z = z :: t := by
  cases fuel with
  | zero => exact Or.inl rfl
  | succ f =>
    rw [sampleZsAux_succ]
    by_cases h : z ≤ z1
    · exact Or.inr ⟨_, if_pos h⟩
    · exact Or.inl (if_neg h)

/-- Every stored sample is at most `z1`. -/
theorem sampleZsAux_le {α : Type} [LinearOrderedField α]
    (dx : α → α) (radius z1 maxStep minStep : α) :
    ∀ (fuel : ℕ) (z : α), ∀ w ∈ sampleZsAux dx radius z1 maxStep minStep fuel z, w ≤ z1 := by
  intro fuel
  induction fuel with
  | zero => intro z w hw; simp [sampleZsAux_zero] at hw
  | succ f ih =>
    intro z w hw
    rw [sampleZsAux_succ] at hw
    by_cases h : z ≤ z1
    · rw [if_pos h] at hw
      rcases List.mem_cons.mp hw with h1 | h2
      · exact h1 ▸ h
      · exact ih _ w h2
    · rw [if_neg h] at hw; simp at hw

/-- Consecutive stored samples differ by a step between `minStep` and
`maxStep`. -/
theorem sampleZsAux_chain {α : Type} [LinearOrderedField α]
    (dx : α → α) (radius z1 maxStep minStep : α) (hms : minStep ≤ maxStep) :
    ∀ (fuel : ℕ) (z : α),
      (sampleZsAux dx radius z1 maxStep minStep fuel z).Chain'
        (fun a b => minStep ≤ b - a ∧ b - a ≤ maxStep) := by
  intro fuel
  induction fuel with
  | zero => intro z; simp [sampleZsAux_zero]
  | succ f ih =>
    intro z
    rw [sampleZsAux_succ]
    by_cases h : z ≤ z1
    · rw [if_pos h]
      apply List.Chain'.cons'
      · exact ih _
      · intro y hy
        rcases sampleZsAux_head dx radius z1 maxStep minStep f
            (z + formalStep dx radius z1 maxStep minStep z) with he | ⟨t, ht⟩
        · rw [he] at hy; simp at hy
        · rw [ht] at hy
          simp only [List.head?_cons, Option.mem_def, Option.some.injEq] at hy
          subst hy
          have := formalStep_bounds dx radius z1 maxStep minStep z hms
          constructor <;> [skip; skip] <;> simp only [add_sub_cancel_left] <;>
            [exact this.1; exact this.2]
    · rw [if_neg h]; simp

/-- Fuel adequacy: if the remaining distance is below `fuel * minStep`, the
loop terminates within one minimum step of `z1`: the last stored sample lies
in the half-open window `(z1 - minStep, z1]`. -/
theorem sampleZsAux_last {α : Type} [LinearOrderedField α]
    (dx : α → α) (radius z1 maxStep minStep : α) :
    ∀ (fuel : ℕ) (z : α), z ≤ z1 → z1 - z < (fuel : α) * minStep →
      ∃ w, (sampleZsAux dx radius z1 maxStep minStep fuel z).getLast? = some w ∧
        z1 - minStep < w ∧ w ≤ z1 := by
  intro fuel
  induction fuel with
  | zero =>
    intro z hz hlt
    simp only [Nat.cast_zero, zero_mul] at hlt
    linarith
  | succ f ih =>
    intro z hz hlt
    rw [sampleZsAux_succ, if_pos hz]
    set dz := formalStep dx radius z1 maxStep minStep z with hdz
    by_cases hrec : z + dz ≤ z1
    · cases f with
      | zero =>
        -- fuel for the tail is exhausted; adequacy already puts `z` in the window
        have hwin : z1 - z < minStep := by push_cast at hlt; linarith
        refine ⟨z, ?_, by linarith, hz⟩
        rw [sampleZsAux_zero]
        rfl
      | succ f' =>
        have hlt' : z1 - (z + dz) < ((f' + 1 : ℕ) : α) * minStep := by
          have hstep : minStep ≤ dz := le_max_right _ _
          push_cast
          push_cast at hlt
          nlinarith
        obtain ⟨w, hw, hw1, hw2⟩ := ih (z + dz) hrec hlt'
        refine ⟨w, ?_, hw1, hw2⟩
        rcases sampleZsAux_head dx radius z1 maxStep minStep (f' + 1) (z + dz) with
          he | ⟨t, ht⟩
        · rw [he] at hw; simp at hw
        · rw [ht] at hw ⊢
          rw [List.getLast?_cons_cons]
          exact hw
    · -- the next step would overshoot: `z` itself is the last sample and the
      -- overshoot forces the remaining distance below `minStep`
      have hmin : z1 - z < minStep := by
        have hx : min (min (dx z / radius) maxStep) (z1 - z) ≤ z1 - z :=
          min_le_right _ _
        by_contra hcon
        push_neg at hcon
        have : dz ≤ z1 - z := by
          rw [hdz, formalStep]
          exact max_le hx hcon
        linarith
      refine ⟨z, ?_, by linarith, hz⟩
      rcases sampleZsAux_head dx radius z1 maxStep minStep f
          (z + dz) with he | ⟨t, ht⟩
      · rw [he]; rfl
      · exfalso
        have : z + dz ∈ sampleZsAux dx radius z1 maxStep minStep f (z + dz) := by
          rw [ht]; exact List.mem_cons_self _ _
        exact hrec (sampleZsAux_le dx radius z1 maxStep minStep f (z + dz) _ this)

/-- With no fuel or past the end, the sampler stores nothing. -/
theorem sampleZsAux_nil {α : Type} [LinearOrderedField α]
    (dx : α → α) (radius z1 maxStep minStep : α) (fuel : ℕ) (z : α)
    (h : ¬ z ≤ z1) : sampleZsAux dx radius z1 maxStep minStep fuel z = [] := by
  cases fuel with
  | zero => rfl
  | succ f => rw [sampleZsAux_succ, if_neg h]

/-! ### Fixed-count sampling lemmas -/

/-- Folding `min` over elements all at least `x` leaves `x`. -/
theorem foldl_min_of_le {α : Type} [LinearOrderedField α] :
    ∀ (xs : List α) (x : α), (∀ w ∈ xs, x ≤ w) → xs.foldl min x = x
  | [], _, _ => rfl
  | y :: t, x, h => by
    rw [List.foldl_cons, min_eq_left (h y (List.mem_cons_self y t))]
    exact foldl_min_of_le t x fun w hw => h w (List.mem_cons_of_mem _ hw)

/-- The array minimum of a strictly increasing nonempty list is its head. -/
theorem arrMin_of_sorted {α : Type} [LinearOrderedField α]
    (x : α) (xs : List α) (h : (x :: xs).Chain' (· < ·)) :
    arrMin (x :: xs) = x := by
  have hp := List.chain'_iff_pairwise.mp h
  rcases List.pairwise_cons.mp hp with ⟨hx, _⟩
  exact foldl_min_of_le xs x fun w hw => le_of_lt (hx w hw)

/-- The first linspace sample is exactly `z0`. -/
theorem linspace_head {α : Type} [LinearOrderedField α]
    (z0 z1 : α) (n : ℕ) (hn : 2 ≤ n) :
    (linspace z0 z1 n).head? = some z0 := by
  obtain ⟨m, rfl⟩ : ∃ m, n = m + 1 := ⟨n - 1, by omega⟩
  unfold linspace
  rw [List.range_succ_eq_map, List.map_cons, List.head?_cons]
  norm_num

/-- Linspace samples are strictly increasing when `z0 < z1` and `n ≥ 2`. -/
theorem linspace_chain {α : Type} [LinearOrderedField α]
    (z0 z1 : α) (n : ℕ) (h : z0 < z1) (hn : 2 ≤ n) :
    (linspace z0 z1 n).Chain' (· < ·) := by
  obtain ⟨m, rfl⟩ : ∃ m, n = m + 1 := ⟨n - 1, by omega⟩
  unfold linspace
  rw [List.chain'_map, List.chain'_range_succ]
  intro i hi
  have hm : (0 : α) < (m : α) := by
    have h1 : 1 ≤ m := by omega
    exact_mod_cast Nat.pos_of_ne_zero (by omega)
  have hden : ((m + 1 : ℕ) : α) - 1 = (m : α) := by push_cast; ring
  rw [hden]
  apply add_lt_add_left
  rw [div_lt_div_iff_of_pos_right hm]
  have hi1 : (i : α) < ((i + 1 : ℕ) : α) := by exact_mod_cast Nat.lt_succ_self i
  have hz : (0 : α) < z1 - z0 := sub_pos.mpr h
  nlinarith

/-- Mapping a strictly increasing affine rescale preserves a strict chain. -/
theorem chain_map_affine {α : Type} [LinearOrderedField α]
    (c radius : α) (hrad : 0 < radius) (zs : List α)
    (h : zs.Chain' (· < ·)) :
    (zs.map fun w => (w - c) * radius).Chain' (· < ·) := by
  rw [List.chain'_map]
  exact h.imp fun {a b} hab => by nlinarith

/-! ### Claim theorems: adaptive sampling (C1) -/

/-- C1 (amended): for every adaptive-strategy ray sampled by
`FormalRayTracer._sample_ray` between refined bounds `z0 < z1`, every step
between consecutive stored samples lies between
`minStepSize = 1e-5 * (z1 - z0)` and `maxStepSize = (z1 - z0) / min_n_pts`,
the first sample is `z0`, no sample exceeds `z1`, and the final stored
sample lies within `minStepSize` below `z1` — but need not equal `z1`
exactly (the minimum-step floor carries the cursor past `z1` without
storing it; see the counterexample). -/
theorem formal_sampling_steps_c1 (dx : ℝ → ℝ) (radius z0 z1 : ℝ)
    (h : z0 < z1) :
    (formalSampleZs dx radius z0 z1).head? = some z0
    ∧ (formalSampleZs dx radius z0 z1).Chain'
        (fun a b => (1 / 100000) * (z1 - z0) ≤ b - a
          ∧ b - a ≤ (z1 - z0) / (min_n_pts : ℝ))
    ∧ (∀ w ∈ formalSampleZs dx radius z0 z1, w ≤ z1)
    ∧ ∃ w, (formalSampleZs dx radius z0 z1).getLast? = some w
        ∧ z1 - (1 / 100000) * (z1 - z0) < w ∧ w ≤ z1 := by
  have hd : (0 : ℝ) < z1 - z0 := sub_pos.mpr h
  have hms : (1 / 100000) * (z1 - z0) ≤ (z1 - z0) / (min_n_pts : ℝ) := by
    simp only [min_n_pts, Nat.cast_ofNat]
    nlinarith
  refine ⟨?_, ?_, ?_, ?_⟩
  · unfold formalSampleZs
    rw [show sampleFuel = 100001 + 1 from rfl, sampleZsAux_succ, if_pos h.le]
    rfl
  · exact sampleZsAux_chain dx radius z1 _ _ hms sampleFuel z0
  · exact sampleZsAux_le dx radius z1 _ _ sampleFuel z0
  · apply sampleZsAux_last dx radius z1 _ _ sampleFuel z0 h.le
    have : ((sampleFuel : ℕ) : ℝ) = 100002 := by norm_num [sampleFuel]
    rw [this]
    nlinarith

/-- Witness for C1 at a concrete instance. -/
theorem formal_sampling_steps_c1_witness :
    (formalSampleZs (fun _ => (1 : ℝ)) 1 0 1).head? = some 0 :=
  (formal_sampling_steps_c1 (fun _ => (1 : ℝ)) 1 0 1 (by norm_num)).1

/-- The constant-step run used by the C1 counterexample: starting from
`k * (199999/400)` with `k ≤ 200`, the sampler always ends at
`199999/2 = 99999.5`, half a minimum step short of `z1 = 100000`. -/
theorem sampleZsAux_run :
    ∀ (fuel : ℕ) (k : ℕ), k ≤ 200 → 201 - k ≤ fuel →
      (sampleZsAux (fun _ => (199999 / 400 : ℝ)) 1 100000 500 1 fuel
          ((k : ℝ) * (199999 / 400))).getLast? = some (199999 / 2 : ℝ) := by
  intro fuel
  induction fuel with
  | zero =>
    intro k hk hf
    exfalso
    omega
  | succ f ih =>
    intro k hk hf
    rw [sampleZsAux_succ]
    by_cases hk200 : k = 200
    · subst hk200
      have hz : ((200 : ℕ) : ℝ) * (199999 / 400) = 199999 / 2 := by norm_num
      rw [hz, if_pos (by norm_num : (199999 / 2 : ℝ) ≤ 100000)]
      have hstep : formalStep (fun _ => (199999 / 400 : ℝ)) 1 100000 500 1
          (199999 / 2) = 1 := by
        unfold formalStep
        rw [min_eq_left (by norm_num : (199999 / 400 : ℝ) / 1 ≤ 500)]
        rw [min_eq_right (by norm_num : (100000 : ℝ) - 199999 / 2 ≤ 199999 / 400 / 1)]
        rw [max_eq_right (by norm_num : (100000 : ℝ) - 199999 / 2 ≤ 1)]
      rw [hstep, sampleZsAux_nil _ _ _ _ _ f _
        (by norm_num : ¬ (199999 / 2 + 1 : ℝ) ≤ 100000)]
      rfl
    · have hk' : k ≤ 199 := by omega
      have hkcast : (k : ℝ) ≤ 199 := by exact_mod_cast hk'
      rw [if_pos (by nlinarith : ((k : ℝ) * (199999 / 400)) ≤ 100000)]
      have hstep : formalStep (fun _ => (199999 / 400 : ℝ)) 1 100000 500 1
          ((k : ℝ) * (199999 / 400)) = 199999 / 400 := by
        have hle : (199999 / 400 : ℝ) / 1 ≤ 100000 - (k : ℝ) * (199999 / 400) := by
          rw [div_one]
          nlinarith
        unfold formalStep
        rw [min_eq_left (by norm_num : (199999 / 400 : ℝ) / 1 ≤ 500)]
        rw [min_eq_left hle]
        rw [max_eq_left (by norm_num : (1 : ℝ) ≤ 199999 / 400 / 1)]
        norm_num
      rw [hstep]
      have hnext : (k : ℝ) * (199999 / 400) + 199999 / 400
          = ((k + 1 : ℕ) : ℝ) * (199999 / 400) := by push_cast; ring
      rw [hnext]
      have htail := ih (k + 1) (by omega) (by omega)
      rcases sampleZsAux_head (fun _ => (199999 / 400 : ℝ)) 1 100000 500 1 f
          (((k + 1 : ℕ) : ℝ) * (199999 / 400)) with he | ⟨t, ht⟩
      · rw [he] at htail
        simp at htail
      · rw [ht] at htail ⊢
        rw [List.getLast?_cons_cons]
        exact htail

/-- Counterexample for C1 as stated: with `z0 = 0`, `z1 = 100000` and a
synchrotron-driven step of `199999/400` (within the allowed window
`[1, 500]`), the last stored sample is `99999.5`, not `z1`. -/
theorem formal_sampling_last_c1_counterexample :
    (formalSampleZs (fun _ => (199999 / 400 : ℝ)) 1 0 100000).getLast?
      ≠ some (100000 : ℝ) := by
  have harg1 : ((100000 : ℝ) - 0) / ((min_n_pts : ℕ) : ℝ) = 500 := by
    simp only [min_n_pts, Nat.cast_ofNat]
    norm_num
  have harg2 : (1 / 100000 : ℝ) * ((100000 : ℝ) - 0) = 1 := by norm_num
  have h0 : (0 : ℝ) = ((0 : ℕ) : ℝ) * (199999 / 400) := by norm_num
  unfold formalSampleZs
  rw [harg1, harg2, h0,
    sampleZsAux_run sampleFuel 0 (by norm_num) (by norm_num [sampleFuel])]
  intro hcon
  rw [Option.some.injEq] at hcon
  norm_num at hcon

/-! ### Claim theorems: path-length monotonicity (C8) -/

/-- C8: for rays from either construction strategy with refined bounds
`z0 < z1` and positive body radius, the path-length array `s` starts at `0`
and is strictly increasing.  The fixed-count strategy is covered for every
sample count `n ≥ 2` (the source uses `nsamps = 300` and `2` for empty
rays); the adaptive strategy for every opaque step-control function. -/
theorem ray_s_monotone_c8 (dx : ℝ → ℝ) (radius z0 z1 : ℝ) (n : ℕ)
    (h : z0 < z1) (hrad : 0 < radius) (hn : 2 ≤ n) :
    ((basicS radius (linspace z0 z1 n)).head? = some 0
      ∧ (basicS radius (linspace z0 z1 n)).Chain' (· < ·))
    ∧ ((formalS radius (formalSampleZs dx radius z0 z1)).head? = some 0
      ∧ (formalS radius (formalSampleZs dx radius z0 z1)).Chain' (· < ·)) := by
  have hd : (0 : ℝ) < z1 - z0 := sub_pos.mpr h
  have hlc := linspace_chain z0 z1 n h hn
  have hlh := linspace_head z0 z1 n hn
  -- the adaptive z samples are strictly increasing
  have hms : (1 / 100000) * (z1 - z0) ≤ (z1 - z0) / (min_n_pts : ℝ) := by
    simp only [min_n_pts, Nat.cast_ofNat]
    nlinarith
  have hfc : (formalSampleZs dx radius z0 z1).Chain' (· < ·) := by
    apply (sampleZsAux_chain dx radius z1 _ _ hms sampleFuel z0).imp
    intro a b hab
    nlinarith [hab.1]
  have hfh : (formalSampleZs dx radius z0 z1).head? = some z0 := by
    unfold formalSampleZs
    rw [show sampleFuel = 100001 + 1 from rfl, sampleZsAux_succ, if_pos h.le]
    rfl
  constructor
  · constructor
    · unfold basicS
      rw [List.head?_map, hlh]
      obtain ⟨xs, hxs⟩ : ∃ xs, linspace z0 z1 n = z0 :: xs := by
        rcases hl : linspace z0 z1 n with _ | ⟨a, xs⟩
        · rw [hl] at hlh; simp at hlh
        · rw [hl] at hlh
          rw [List.head?_cons, Option.some.injEq] at hlh
          exact ⟨xs, by rw [hlh]⟩
      rw [hxs]
      rw [arrMin_of_sorted z0 xs (hxs ▸ hlc)]
      simp
    · unfold basicS
      exact chain_map_affine _ radius hrad _ hlc
  · constructor
    · unfold formalS
      rw [List.head?_map, hfh]
      have : (formalSampleZs dx radius z0 z1).headD 0 = z0 := by
        rw [List.headD_eq_head?_getD, hfh]
        rfl
      rw [this]
      simp
    · unfold formalS
      exact chain_map_affine _ radius hrad _ hfc

/-- Witness for C8 at a concrete instance. -/
theorem ray_s_monotone_c8_witness :
    (basicS 1 (linspace (0 : ℝ) 1 2)).head? = some 0 :=
  ((ray_s_monotone_c8 (fun _ => 1) 1 0 1 2 (by norm_num) (by norm_num)
    (by norm_num)).1).1

/-! ### The arctangent-with-quadrants helper -/

/-- The square root appearing in `arctan` recovery, rewritten through the
Pythagorean sum, for nonzero `x`. -/
theorem sqrt_one_add_div_sq {x y : ℝ} (hx : x ≠ 0) :
    Real.sqrt (1 + (y / x) ^ 2) = Real.sqrt (x ^ 2 + y ^ 2) / |x| := by
  rw [show 1 + (y / x) ^ 2 = (x ^ 2 + y ^ 2) / x ^ 2 by field_simp]
  rw [Real.sqrt_div (by positivity), Real.sqrt_sq_eq_abs]

/-- Cosine and sine of `atan2 y x` recover the unit direction `(x, y)`,
whenever `(x, y)` is not the origin. -/
theorem cos_sin_atan2 {x y : ℝ} (h : ¬(x = 0 ∧ y = 0)) :
    Real.cos (atan2 y x) = x / Real.sqrt (x ^ 2 + y ^ 2)
    ∧ Real.sin (atan2 y x) = y / Real.sqrt (x ^ 2 + y ^ 2) := by
  have hpi := Real.pi_pos
  rcases lt_trichotomy x 0 with hx | hx | hx
  · have hxne : x ≠ 0 := ne_of_lt hx
    have habs : |x| = -x := abs_of_neg hx
    have hsq : (0 : ℝ) < Real.sqrt (x ^ 2 + y ^ 2) := by
      apply Real.sqrt_pos.mpr; positivity
    rcases le_or_lt 0 y with hy | hy
    · have hb : atan2 y x = Real.arctan (y / x) + Real.pi := by
        unfold atan2
        rw [if_neg (by linarith), if_pos ⟨hx, hy⟩]
      rw [hb, Real.cos_add_pi, Real.sin_add_pi, Real.cos_arctan, Real.sin_arctan,
        sqrt_one_add_div_sq hxne, habs]
      constructor <;> field_simp <;> ring
    · have hb : atan2 y x = Real.arctan (y / x) - Real.pi := by
        unfold atan2
        rw [if_neg (by linarith), if_neg (by rintro ⟨_, hy'⟩; linarith),
          if_pos ⟨hx, hy⟩]
      rw [hb, Real.cos_sub_pi, Real.sin_sub_pi, Real.cos_arctan, Real.sin_arctan,
        sqrt_one_add_div_sq hxne, habs]
      constructor <;> field_simp <;> ring
  · subst hx
    rcases lt_trichotomy y 0 with hy | hy | hy
    · have hb : atan2 y 0 = -(Real.pi / 2) := by
        unfold atan2
        rw [if_neg (by linarith), if_neg (by rintro ⟨h', _⟩; linarith),
          if_neg (by rintro ⟨_, h'⟩; linarith),
          if_neg (by rintro ⟨_, h'⟩; linarith), if_pos ⟨rfl, hy⟩]
      have habs : Real.sqrt ((0 : ℝ) ^ 2 + y ^ 2) = -y := by
        rw [show (0 : ℝ) ^ 2 + y ^ 2 = y ^ 2 by ring, Real.sqrt_sq_eq_abs,
          abs_of_neg hy]
      rw [hb, habs, Real.cos_neg, Real.sin_neg, Real.cos_pi_div_two,
        Real.sin_pi_div_two]
      constructor
      · rw [zero_div]
      · rw [div_neg, div_self (ne_of_lt hy)]
    · exact absurd ⟨rfl, hy⟩ h
    · have hb : atan2 y 0 = Real.pi / 2 := by
        unfold atan2
        rw [if_neg (by linarith), if_neg (by rintro ⟨h', _⟩; linarith),
          if_neg (by rintro ⟨_, h'⟩; linarith), if_pos ⟨rfl, hy⟩]
      have habs : Real.sqrt ((0 : ℝ) ^ 2 + y ^ 2) = y := by
        rw [show (0 : ℝ) ^ 2 + y ^ 2 = y ^ 2 by ring, Real.sqrt_sq_eq_abs,
          abs_of_pos hy]
      rw [hb, habs, Real.cos_pi_div_two, Real.sin_pi_div_two]
      constructor
      · rw [zero_div]
      · rw [div_self (ne_of_gt hy)]
  · have hxne : x ≠ 0 := ne_of_gt hx
    have habs : |x| = x := abs_of_pos hx
    have hsq : (0 : ℝ) < Real.sqrt (x ^ 2 + y ^ 2) := by
      apply Real.sqrt_pos.mpr; positivity
    have hb : atan2 y x = Real.arctan (y / x) := by
      unfold atan2
      rw [if_pos hx]
    rw [hb, Real.cos_arctan, Real.sin_arctan, sqrt_one_add_div_sq hxne, habs]
    constructor <;> field_simp

/-- `atan2` always returns a value in `(-pi, pi]`, matching numpy. -/
theorem atan2_range (y x : ℝ) : -Real.pi < atan2 y x ∧ atan2 y x ≤ Real.pi := by
  have hpi := Real.pi_pos
  have hlt := Real.arctan_lt_pi_div_two (y / x)
  have hgt := Real.neg_pi_div_two_lt_arctan (y / x)
  unfold atan2
  split_ifs with h1 h2 h3 h4 h5
  · constructor <;> linarith
  · have hyx : y / x ≤ 0 := div_nonpos_iff.mpr (Or.inl ⟨h2.2, h2.1.le⟩)
    have : Real.arctan (y / x) ≤ 0 := by
      have := Real.arctan_strictMono.monotone hyx
      rwa [Real.arctan_zero] at this
    constructor <;> linarith
  · have hyx : 0 < y / x := div_pos_iff.mpr (Or.inr ⟨h3.2, h3.1⟩)
    have : 0 < Real.arctan (y / x) := by
      have := Real.arctan_strictMono hyx
      rwa [Real.arctan_zero] at this
    constructor <;> linarith
  · constructor <;> linarith
  · constructor <;> linarith
  · constructor <;> linarith

/-- The polar direction `(c cos θ, c sin θ)` with `c > 0` is recovered by
`atan2` up to the `2π` ambiguity. -/
theorem atan2_polar (c θ : ℝ) (hc : 0 < c) :
    ∃ k : ℤ, atan2 (c * Real.sin θ) (c * Real.cos θ) = θ + 2 * Real.pi * k := by
  have hpyth := Real.sin_sq_add_cos_sq θ
  have hne : ¬(c * Real.cos θ = 0 ∧ c * Real.sin θ = 0) := by
    rintro ⟨h1, h2⟩
    have hcos : Real.cos θ = 0 := by
      rcases mul_eq_zero.mp h1 with h | h
      · exact absurd h hc.ne'
      · exact h
    have hsin : Real.sin θ = 0 := by
      rcases mul_eq_zero.mp h2 with h | h
      · exact absurd h hc.ne'
      · exact h
    rw [hsin, hcos] at hpyth
    norm_num at hpyth
  obtain ⟨hcosφ, hsinφ⟩ := cos_sin_atan2 hne
  have hsq : Real.sqrt ((c * Real.cos θ) ^ 2 + (c * Real.sin θ) ^ 2) = c := by
    rw [show (c * Real.cos θ) ^ 2 + (c * Real.sin θ) ^ 2 = c ^ 2 by
      linear_combination c ^ 2 * hpyth]
    exact Real.sqrt_sq hc.le
  rw [hsq, mul_div_cancel_left₀ _ hc.ne'] at hcosφ hsinφ
  have hcos1 : Real.cos (atan2 (c * Real.sin θ) (c * Real.cos θ) - θ) = 1 := by
    rw [Real.cos_sub, hcosφ, hsinφ]
    linear_combination hpyth
  obtain ⟨n, hn⟩ := (Real.cos_eq_one_iff _).mp hcos1
  exact ⟨n, by linarith⟩

/-- Exact recovery: for `θ` already in `atan2`'s range `(-pi, pi]`, the
polar direction is recovered exactly. -/
theorem atan2_polar_eq (c θ : ℝ) (hc : 0 < c) (h1 : -Real.pi < θ)
    (h2 : θ ≤ Real.pi) :
    atan2 (c * Real.sin θ) (c * Real.cos θ) = θ := by
  obtain ⟨k, hk⟩ := atan2_polar c θ hc
  have hr := atan2_range (c * Real.sin θ) (c * Real.cos θ)
  have hpi := Real.pi_pos
  have hk0 : k = 0 := by
    rcases lt_trichotomy k 0 with hlt | heq | hgt
    · exfalso
      have hk1 : k ≤ -1 := by omega
      have hcast : (k : ℝ) ≤ -1 := by exact_mod_cast hk1
      nlinarith [hr.1, hr.2]
    · exact heq
    · exfalso
      have hcast : (1 : ℝ) ≤ (k : ℝ) := by exact_mod_cast hgt
      nlinarith [hr.1, hr.2]
  rw [hk0] at hk
  simpa using hk

/-! ### Spherical / Cartesian round trips -/

/-- `cart_to_sph` written out as the tuple it computes. -/
theorem cart_to_sph_def (x y z : ℝ) :
    cart_to_sph x y z =
      (Real.arcsin
          (min (max (z / max (Real.sqrt (x ^ 2 + y ^ 2 + z ^ 2)) rGuard) (-1)) 1),
        atan2 y x, Real.sqrt (x ^ 2 + y ^ 2 + z ^ 2)) := rfl

/-- Going Cartesian → spherical → Cartesian is the identity whenever the
radius clears the `1e-10` division guard. -/
theorem sph_to_cart_cart_to_sph (x y z : ℝ)
    (h : rGuard ≤ Real.sqrt (x ^ 2 + y ^ 2 + z ^ 2)) :
    sph_to_cart (cart_to_sph x y z).1 (cart_to_sph x y z).2.1
      (cart_to_sph x y z).2.2 = (x, y, z) := by
  have hguard : (0 : ℝ) < rGuard := by norm_num [rGuard]
  set n := Real.sqrt (x ^ 2 + y ^ 2 + z ^ 2) with hn
  have hn0 : 0 < n := lt_of_lt_of_le hguard h
  have hnsq : n ^ 2 = x ^ 2 + y ^ 2 + z ^ 2 := Real.sq_sqrt (by positivity)
  have hzn : |z| ≤ n := by
    rw [← Real.sqrt_sq_eq_abs, hn]
    apply Real.sqrt_le_sqrt
    nlinarith [sq_nonneg x, sq_nonneg y]
  have habs : |z / n| ≤ 1 := by
    rw [abs_div, abs_of_pos hn0]
    exact (div_le_one hn0).mpr hzn
  obtain ⟨hb1, hb2⟩ := abs_le.mp habs
  have hfields : cart_to_sph x y z = (Real.arcsin (z / n), atan2 y x, n) := by
    rw [cart_to_sph_def, max_eq_left h, max_eq_left hb1, min_eq_left hb2]
  have hsin : Real.sin (Real.arcsin (z / n)) = z / n := Real.sin_arcsin hb1 hb2
  have hcos : Real.cos (Real.arcsin (z / n)) = Real.sqrt (x ^ 2 + y ^ 2) / n := by
    rw [Real.cos_arcsin,
      show 1 - (z / n) ^ 2 = (x ^ 2 + y ^ 2) / n ^ 2 by
        field_simp
        linarith [hnsq],
      Real.sqrt_div (by positivity), Real.sqrt_sq hn0.le]
  rw [hfields]
  simp only [sph_to_cart]
  by_cases hxy : x = 0 ∧ y = 0
  · obtain ⟨hx0, hy0⟩ := hxy
    subst hx0
    subst hy0
    have h00 : Real.sqrt ((0 : ℝ) ^ 2 + 0 ^ 2) = 0 := by norm_num
    rw [hcos, hsin, h00]
    refine Prod.ext ?_ (Prod.ext ?_ ?_) <;> simp <;> field_simp
  · have hx2 : 0 < x ^ 2 + y ^ 2 := by
      rcases not_and_or.mp hxy with hx | hy
      · have := pow_two_pos_of_ne_zero hx
        nlinarith [sq_nonneg y]
      · have := pow_two_pos_of_ne_zero hy
        nlinarith [sq_nonneg x]
    obtain ⟨hc, hs⟩ := cos_sin_atan2 hxy
    have hsq2 : 0 < Real.sqrt (x ^ 2 + y ^ 2) := Real.sqrt_pos.mpr hx2
    rw [hcos, hsin, hc, hs]
    refine Prod.ext ?_ (Prod.ext ?_ ?_)
    · show n * (Real.sqrt (x ^ 2 + y ^ 2) / n) * (x / Real.sqrt (x ^ 2 + y ^ 2)) = x
      field_simp
    · show n * (Real.sqrt (x ^ 2 + y ^ 2) / n) * (y / Real.sqrt (x ^ 2 + y ^ 2)) = y
      field_simp
    · show n * (z / n) = z
      field_simp

/-- Going spherical → Cartesian → spherical recovers `(lat, lon, r)` up to
the `2π` longitude ambiguity, away from the poles and the radius guard. -/
theorem cart_to_sph_sph_to_cart (lat lon r : ℝ) (hr : rGuard ≤ r)
    (hlat1 : -(Real.pi / 2) < lat) (hlat2 : lat < Real.pi / 2) :
    ∃ k : ℤ, cart_to_sph (r * Real.cos lat * Real.cos lon)
        (r * Real.cos lat * Real.sin lon) (r * Real.sin lat)
      = (lat, lon + 2 * Real.pi * k, r) := by
  have hguard : (0 : ℝ) < rGuard := by norm_num [rGuard]
  have hr0 : 0 < r := lt_of_lt_of_le hguard hr
  have hcoslat : 0 < Real.cos lat := Real.cos_pos_of_mem_Ioo ⟨hlat1, hlat2⟩
  have hpl := Real.sin_sq_add_cos_sq lon
  have hpt := Real.sin_sq_add_cos_sq lat
  have hsum : (r * Real.cos lat * Real.cos lon) ^ 2
      + (r * Real.cos lat * Real.sin lon) ^ 2 + (r * Real.sin lat) ^ 2
      = r ^ 2 := by
    linear_combination (r ^ 2 * Real.cos lat ^ 2) * hpl + r ^ 2 * hpt
  have hn : Real.sqrt ((r * Real.cos lat * Real.cos lon) ^ 2
      + (r * Real.cos lat * Real.sin lon) ^ 2 + (r * Real.sin lat) ^ 2) = r := by
    rw [hsum, Real.sqrt_sq hr0.le]
  have hdiv : r * Real.sin lat / r = Real.sin lat :=
    mul_div_cancel_left₀ _ hr0.ne'
  obtain ⟨k, hk⟩ := atan2_polar (r * Real.cos lat) lon (by positivity)
  refine ⟨k, ?_⟩
  rw [cart_to_sph_def, hn, max_eq_left hr, hdiv,
    max_eq_left (Real.neg_one_le_sin lat), min_eq_left (Real.sin_le_one lat),
    Real.arcsin_sin hlat1.le hlat2.le]
  rw [show r * Real.cos lat * Real.sin lon = r * Real.cos lat * Real.sin lon from rfl]
  rw [show (r * Real.cos lat * Real.sin lon) = ((r * Real.cos lat) * Real.sin lon)
      from by ring,
    show (r * Real.cos lat * Real.cos lon) = ((r * Real.cos lat) * Real.cos lon)
      from by ring, hk]

/-- Exact spherical round trip for longitudes already in `(-pi, pi]`. -/
theorem cart_to_sph_sph_to_cart_eq (lat lon r : ℝ) (hr : rGuard ≤ r)
    (hlat1 : -(Real.pi / 2) < lat) (hlat2 : lat < Real.pi / 2)
    (hlon1 : -Real.pi < lon) (hlon2 : lon ≤ Real.pi) :
    cart_to_sph (r * Real.cos lat * Real.cos lon)
        (r * Real.cos lat * Real.sin lon) (r * Real.sin lat)
      = (lat, lon, r) := by
  have hguard : (0 : ℝ) < rGuard := by norm_num [rGuard]
  have hr0 : 0 < r := lt_of_lt_of_le hguard hr
  have hcoslat : 0 < Real.cos lat := Real.cos_pos_of_mem_Ioo ⟨hlat1, hlat2⟩
  have hpl := Real.sin_sq_add_cos_sq lon
  have hpt := Real.sin_sq_add_cos_sq lat
  have hsum : (r * Real.cos lat * Real.cos lon) ^ 2
      + (r * Real.cos lat * Real.sin lon) ^ 2 + (r * Real.sin lat) ^ 2
      = r ^ 2 := by
    linear_combination (r ^ 2 * Real.cos lat ^ 2) * hpl + r ^ 2 * hpt
  have hn : Real.sqrt ((r * Real.cos lat * Real.cos lon) ^ 2
      + (r * Real.cos lat * Real.sin lon) ^ 2 + (r * Real.sin lat) ^ 2) = r := by
    rw [hsum, Real.sqrt_sq hr0.le]
  have hdiv : r * Real.sin lat / r = Real.sin lat :=
    mul_div_cancel_left₀ _ hr0.ne'
  rw [cart_to_sph_def, hn, max_eq_left hr, hdiv,
    max_eq_left (Real.neg_one_le_sin lat), min_eq_left (Real.sin_le_one lat),
    Real.arcsin_sin hlat1.le hlat2.le,
    show (r * Real.cos lat * Real.sin lon) = ((r * Real.cos lat) * Real.sin lon)
      from by ring,
    show (r * Real.cos lat * Real.cos lon) = ((r * Real.cos lat) * Real.cos lon)
      from by ring,
    atan2_polar_eq (r * Real.cos lat) lon (by positivity) hlon1 hlon2]

/-! ### Tilted-dipole transforms -/

/-- `tdf_from_dc` applied to the spherical coordinates of a Cartesian point
is the rotated point, provided the radius clears the guard. -/
theorem tdf_from_dc_cart (tilt wx wy wz : ℝ)
    (h : rGuard ≤ Real.sqrt (wx ^ 2 + wy ^ 2 + wz ^ 2)) :
    tdf_from_dc tilt (cart_to_sph wx wy wz).1 (cart_to_sph wx wy wz).2.1
        (cart_to_sph wx wy wz).2.2
      = cart_to_sph (-Real.sin (-tilt) * wz + Real.cos (-tilt) * wx) wy
        (Real.cos (-tilt) * wz + Real.sin (-tilt) * wx) := by
  have hsc := sph_to_cart_cart_to_sph wx wy wz h
  simp only [tdf_from_dc]
  rw [hsc]

/-- `tdf_to_dc` written out through the rotated Cartesian components. -/
theorem tdf_to_dc_def (tilt lat lon r : ℝ) :
    tdf_to_dc tilt lat lon r
      = cart_to_sph
          (-Real.sin tilt * (r * Real.sin lat)
            + Real.cos tilt * (r * Real.cos lat * Real.cos lon))
          (r * Real.cos lat * Real.sin lon)
          (Real.cos tilt * (r * Real.sin lat)
            + Real.sin tilt * (r * Real.cos lat * Real.cos lon)) := rfl

/-- The dipole-centric round trip recovers `(lat, lon, r)` up to the `2π`
longitude ambiguity, for every tilt, away from the poles and the radius
guard. -/
theorem tdf_round_trip_formula (tilt lat lon r : ℝ)
    (hlat1 : -(Real.pi / 2) < lat) (hlat2 : lat < Real.pi / 2)
    (hr : rGuard ≤ r) :
    ∃ k : ℤ, tdf_round_trip tilt lat lon r
      = (lat, lon + 2 * Real.pi * k, r) := by
  have h1 := Real.sin_sq_add_cos_sq tilt
  have h2 := Real.sin_sq_add_cos_sq lon
  have h3 := Real.sin_sq_add_cos_sq lat
  have hguard : (0 : ℝ) < rGuard := by norm_num [rGuard]
  have hr0 : 0 < r := lt_of_lt_of_le hguard hr
  have hnorm : rGuard ≤ Real.sqrt
      ((-Real.sin tilt * (r * Real.sin lat)
          + Real.cos tilt * (r * Real.cos lat * Real.cos lon)) ^ 2
        + (r * Real.cos lat * Real.sin lon) ^ 2
        + (Real.cos tilt * (r * Real.sin lat)
          + Real.sin tilt * (r * Real.cos lat * Real.cos lon)) ^ 2) := by
    rw [show (-Real.sin tilt * (r * Real.sin lat)
          + Real.cos tilt * (r * Real.cos lat * Real.cos lon)) ^ 2
        + (r * Real.cos lat * Real.sin lon) ^ 2
        + (Real.cos tilt * (r * Real.sin lat)
          + Real.sin tilt * (r * Real.cos lat * Real.cos lon)) ^ 2 = r ^ 2 from by
      linear_combination ((r * Real.cos lat * Real.cos lon) ^ 2
          + (r * Real.sin lat) ^ 2) * h1 + (r ^ 2 * Real.cos lat ^ 2) * h2
        + r ^ 2 * h3]
    rw [Real.sqrt_sq hr0.le]
    exact hr
  have hfd := tdf_from_dc_cart tilt _ _ _ hnorm
  obtain ⟨k, hk⟩ := cart_to_sph_sph_to_cart lat lon r hr hlat1 hlat2
  refine ⟨k, ?_⟩
  simp only [tdf_round_trip]
  rw [tdf_to_dc_def, hfd]
  rw [show -Real.sin (-tilt)
        * (Real.cos tilt * (r * Real.sin lat)
          + Real.sin tilt * (r * Real.cos lat * Real.cos lon))
      + Real.cos (-tilt)
        * (-Real.sin tilt * (r * Real.sin lat)
          + Real.cos tilt * (r * Real.cos lat * Real.cos lon))
      = r * Real.cos lat * Real.cos lon from by
    rw [Real.sin_neg, Real.cos_neg]
    linear_combination (r * Real.cos lat * Real.cos lon) * h1]
  rw [show Real.cos (-tilt)
        * (Real.cos tilt * (r * Real.sin lat)
          + Real.sin tilt * (r * Real.cos lat * Real.cos lon))
      + Real.sin (-tilt)
        * (-Real.sin tilt * (r * Real.sin lat)
          + Real.cos tilt * (r * Real.cos lat * Real.cos lon))
      = r * Real.sin lat from by
    rw [Real.sin_neg, Real.cos_neg]
    linear_combination (r * Real.sin lat) * h1]
  exact hk

/-- With zero tilt the dipole-centric transform is the spherical round trip
itself, so `tdf_call` is the identity on `(lat, lon)` with
`L = r / cos(lat)^2`, for in-range longitudes. -/
theorem tdf_call_tilt_zero (lat lon r : ℝ)
    (hlat1 : -(Real.pi / 2) < lat) (hlat2 : lat < Real.pi / 2)
    (hlon1 : -Real.pi < lon) (hlon2 : lon ≤ Real.pi) (hr : rGuard ≤ r) :
    tdf_call 0 lat lon r = (lat, lon, r / Real.cos lat ^ 2) := by
  have hto : tdf_to_dc 0 lat lon r
      = cart_to_sph (r * Real.cos lat * Real.cos lon)
          (r * Real.cos lat * Real.sin lon) (r * Real.sin lat) := by
    rw [tdf_to_dc_def, Real.sin_zero, Real.cos_zero]
    norm_num
  simp only [tdf_call]
  rw [hto, cart_to_sph_sph_to_cart_eq lat lon r hr hlat1 hlat2 hlon1 hlon2]

/-! ### Claim theorems: zero-tilt magnetic coordinates (C2) -/

/-- C2 (amended): for `tilt = 0` the `TiltedDipoleField` magnetic-coordinate
transform is the identity on `(lat, lon)` for latitudes strictly inside
`(-pi/2, pi/2)`, longitudes in `atan2` range `(-pi, pi]` and radii above the
`1e-10` guard — but it returns `L = r / cos(lat)^2`, not `L = r`, which
differ whenever `lat ≠ 0`. -/
theorem dipole_identity_c2 (lat lon r : ℝ)
    (hlat1 : -(Real.pi / 2) < lat) (hlat2 : lat < Real.pi / 2)
    (hlon1 : -Real.pi < lon) (hlon2 : lon ≤ Real.pi) (hr : rGuard ≤ r) :
    tdf_call 0 lat lon r = (lat, lon, r / Real.cos lat ^ 2) :=
  tdf_call_tilt_zero lat lon r hlat1 hlat2 hlon1 hlon2 hr

/-- Witness for C2 at a concrete instance. -/
theorem dipole_identity_c2_witness :
    tdf_call 0 0 0 1 = (0, 0, 1 / Real.cos 0 ^ 2) := by
  have hpi := Real.pi_pos
  exact dipole_identity_c2 0 0 1 (by linarith) (by linarith) (by linarith)
    (by linarith) (by norm_num [rGuard])

/-- Counterexample for C2 as stated: at `(lat, lon, r) = (pi/3, 0, 1)` the
transform returns `L = 4`, not `L = r = 1`. -/
theorem dipole_identity_c2_counterexample :
    tdf_call 0 (Real.pi / 3) 0 1 = (Real.pi / 3, 0, 4) ∧ (4 : ℝ) ≠ 1 := by
  have hpi := Real.pi_pos
  constructor
  · rw [tdf_call_tilt_zero (Real.pi / 3) 0 1 (by linarith) (by linarith)
      (by linarith) (by linarith) (by norm_num [rGuard])]
    rw [Real.cos_pi_div_three]
    norm_num
  · norm_num

/-! ### Claim theorems: dipole-centric round trip (C6) -/

/-- C6 (amended): for every tilt in `[0, pi)`, the round trip
`fromDipoleCentric(toDipoleCentric(lat, lon, r))` recovers `(lat, lon, r)`
with longitude compared modulo `2π`, for latitudes strictly inside
`(-pi/2, pi/2)` and radii at or above the `1e-10` guard of `cart_to_sph`
(at the poles the longitude is lost, and below the guard radius the guarded
division distorts the latitude; see the counterexample at `r = 0`). -/
theorem dipole_round_trip_c6 (tilt lat lon r : ℝ)
    (ht1 : 0 ≤ tilt) (ht2 : tilt < Real.pi)
    (hlat1 : -(Real.pi / 2) < lat) (hlat2 : lat < Real.pi / 2)
    (hlon1 : 0 ≤ lon) (hlon2 : lon < 2 * Real.pi) (hr : rGuard ≤ r) :
    ∃ k : ℤ, tdf_round_trip tilt lat lon r
      = (lat, lon + 2 * Real.pi * k, r) :=
  tdf_round_trip_formula tilt lat lon r hlat1 hlat2 hr

/-- Witness for C6 at a concrete instance. -/
theorem dipole_round_trip_c6_witness :
    ∃ k : ℤ, tdf_round_trip 0 0 0 1 = (0, 0 + 2 * Real.pi * k, 1) := by
  have hpi := Real.pi_pos
  exact dipole_round_trip_c6 0 0 0 1 le_rfl hpi (by linarith) (by linarith)
    le_rfl (by linarith) (by norm_num [rGuard])

/-- Counterexample for C6 as stated: at `r = 0` (allowed by the claim, which
only requires `r ≥ 0`) with `lon = 1`, the round trip collapses to the
origin triple `(0, 0, 0)`, and `0` does not equal `1` modulo `2π`. -/
theorem dipole_round_trip_c6_counterexample :
    tdf_round_trip 0 0 1 0 = (0, 0, 0)
    ∧ ¬ ∃ k : ℤ, (0 : ℝ) = 1 + 2 * Real.pi * k := by
  constructor
  · have hz : cart_to_sph 0 0 0 = (0, 0, 0) := by
      rw [cart_to_sph_def]
      norm_num [atan2, rGuard, Real.arcsin_zero]
    have hto : tdf_to_dc 0 0 1 0 = (0, 0, 0) := by
      rw [tdf_to_dc_def]
      norm_num [hz]
    simp only [tdf_round_trip]
    rw [hto]
    simp only [tdf_from_dc]
    norm_num [sph_to_cart, hz]
  · rintro ⟨k, hk⟩
    have hpi := Real.pi_gt_three
    rcases lt_trichotomy k 0 with hlt | heq | hgt
    · have hk1 : k ≤ -1 := by omega
      have hcast : (k : ℝ) ≤ -1 := by exact_mod_cast hk1
      nlinarith
    · rw [heq] at hk
      norm_num at hk
    · have hk1 : 1 ≤ k := hgt
      have hcast : (1 : ℝ) ≤ (k : ℝ) := by exact_mod_cast hk1
      nlinarith

/-! ### Claim theorems: constructor validation (C5) -/

/-- C5: `ObserverToBodycentric` rejects a latitude-of-center outside
`[0, pi/2]` and `TiltedDipoleField` rejects a tilt outside `[0, pi)` at
construction time; every in-range value is stored unchanged, never
clamped. -/
theorem constructor_validation_c5 (angcen : ℝ → ℝ) (loc cml tilt moment : ℝ) :
    ((loc < 0 ∨ loc > Real.pi / 2) →
      mkObserverToBodycentric angcen loc cml
        = Except.error (CfgError.badLoc loc))
    ∧ (0 ≤ loc → loc ≤ Real.pi / 2 →
      mkObserverToBodycentric angcen loc cml = Except.ok ⟨loc, angcen cml⟩)
    ∧ ((tilt < 0 ∨ Real.pi ≤ tilt) →
      mkTiltedDipoleField tilt moment = Except.error (CfgError.badTilt tilt))
    ∧ (0 ≤ tilt → tilt < Real.pi →
      mkTiltedDipoleField tilt moment = Except.ok ⟨tilt, moment⟩) := by
  refine ⟨?_, ?_, ?_, ?_⟩
  · intro h
    unfold mkObserverToBodycentric
    rw [if_pos h]
  · intro h1 h2
    unfold mkObserverToBodycentric
    rw [if_neg (by push_neg; exact ⟨h1, h2⟩)]
  · intro h
    unfold mkTiltedDipoleField
    rw [if_pos h]
  · intro h1 h2
    unfold mkTiltedDipoleField
    rw [if_neg (by push_neg; exact ⟨h1, h2⟩)]

/-- Witness for C5 at concrete in- and out-of-range parameters. -/
theorem constructor_validation_c5_witness :
    mkObserverToBodycentric id 3 0 = Except.error (CfgError.badLoc 3)
    ∧ mkObserverToBodycentric id 1 0 = Except.ok ⟨1, id 0⟩
    ∧ mkTiltedDipoleField 4 5 = Except.error (CfgError.badTilt 4)
    ∧ mkTiltedDipoleField 1 5 = Except.ok ⟨1, 5⟩ := by
  have hpi1 := Real.pi_gt_three
  have hpi2 := Real.pi_lt_d2
  exact ⟨(constructor_validation_c5 id 3 0 4 5).1 (Or.inr (by linarith)),
    (constructor_validation_c5 id 1 0 4 5).2.1 (by norm_num) (by linarith),
    (constructor_validation_c5 id 3 0 4 5).2.2.1 (Or.inr (by linarith)),
    (constructor_validation_c5 id 3 0 1 5).2.2.2 (by norm_num) (by linarith)⟩

/-! ### Claim theorems: coefficient memoization (C7) -/

/-- C7: `ensure_rt_coeffs` is idempotent — once the coefficient arrays are
filled, a second call leaves the ray state (hence the cached `j`, `alpha`,
`rho` arrays) exactly as the first call left them, performing no
recomputation. -/
theorem coeffs_idempotent_c7 {P J A R : Type} (synch_calc : P → J × A × R)
    (ray : RayRT P J A R) :
    ensure_rt_coeffs synch_calc (ensure_rt_coeffs synch_calc ray)
      = ensure_rt_coeffs synch_calc ray := by
  obtain ⟨phys, j, alpha, rho⟩ := ray
  cases j <;> rfl

/-! ### Claim theorems: Stokes selector validation (C9) -/

set_option maxHeartbeats 1600000 in
/-- C9: every textual selector whose lowercase form is outside the
recognized set makes both `frame` and `flux` fail with an error naming the
(lowercased) offending value; every recognized selector succeeds. -/
theorem stokes_selector_c9 {npix : ℕ} (nf : ℕ → Fin npix → ℝ) (sel : String) :
    (strLower sel ∉ recognizedStokes →
      frameStr nf sel = Except.error (StokesError.unrecognized (strLower sel))
      ∧ fluxStr nf sel = Except.error (StokesError.unrecognized (strLower sel)))
    ∧ (strLower sel ∈ recognizedStokes →
      (∃ img, frameStr nf sel = Except.ok img)
      ∧ ∃ v, fluxStr nf sel = Except.ok v) := by
  constructor
  · intro h
    simp only [recognizedStokes, List.mem_cons, List.not_mem_nil, or_false] at h
    push_neg at h
    obtain ⟨h1, h2, h3, h4, h5, h6, h7, h8⟩ := h
    constructor
    · simp only [frameStr]
      rw [if_neg h1, if_neg h2, if_neg h3, if_neg h4, if_neg h5, if_neg h6,
        if_neg h7, if_neg h8]
    · simp only [fluxStr]
      rw [if_neg h1, if_neg h2, if_neg h3, if_neg h4, if_neg h5, if_neg h6,
        if_neg h7, if_neg h8]
  · intro h
    simp only [recognizedStokes, List.mem_cons, List.not_mem_nil, or_false] at h
    constructor
    · rcases h with h | h | h | h | h | h | h | h <;>
        · simp only [frameStr, h]
          exact ⟨_, rfl⟩
    · rcases h with h | h | h | h | h | h | h | h
      · simp only [fluxStr, h]
        exact ⟨_, rfl⟩
      · simp only [fluxStr, h]
        exact ⟨_, rfl⟩
      · simp only [fluxStr, h]
        exact ⟨_, rfl⟩
      · simp only [fluxStr, h]
        exact ⟨_, rfl⟩
      · simp only [fluxStr, h]
        exact ⟨_, rfl⟩
      · simp only [fluxStr, h]
        exact ⟨_, rfl⟩
      · simp only [fluxStr, h]
        by_cases hz : (∑ px, nf 0 px) = 0
        · rw [if_pos hz]
          exact ⟨_, rfl⟩
        · rw [if_neg hz]
          exact ⟨_, rfl⟩
      · simp only [fluxStr, h]
        by_cases hz : (∑ px, nf 0 px) = 0
        · rw [if_pos hz, if_pos hz]
          exact ⟨_, rfl⟩
        · rw [if_neg hz, if_neg hz]
          exact ⟨_, rfl⟩

/-- Witness for C9 at a concrete unknown and a concrete mixed-case
recognized selector. -/
theorem stokes_selector_c9_witness :
    frameStr (fun _ => (fun _ => 0 : Fin 1 → ℝ)) "xyz"
      = Except.error (StokesError.unrecognized (strLower "xyz"))
    ∧ ∃ img, frameStr (fun _ => (fun _ => 0 : Fin 1 → ℝ)) "FL"
        = Except.ok img := by
  constructor
  · exact ((stokes_selector_c9 (fun _ => (fun _ => 0 : Fin 1 → ℝ)) "xyz").1
      (by decide)).1
  · exact ((stokes_selector_c9 (fun _ => (fun _ => 0 : Fin 1 → ℝ)) "FL").2
      (by decide)).1

/-! ### Claim theorems: guarded fractional polarization (C10) -/

/-- C10: the `fl` and `fc` selectors guard the division by Stokes I: in
both `frame` (pixelwise) and `flux` (on sums), a zero Stokes-I value yields
exactly `0`, and a nonzero one yields `sqrt(Q^2+U^2)/I` resp. `V/I`. -/
theorem frac_polarization_c10 {npix : ℕ} (nf : ℕ → Fin npix → ℝ) :
    frameStr nf "fl" = Except.ok (fun px =>
      if nf 0 px = 0 then 0
      else Real.sqrt (nf 1 px ^ 2 + nf 2 px ^ 2) / nf 0 px)
    ∧ frameStr nf "fc" = Except.ok (fun px =>
      if nf 0 px = 0 then 0 else nf 3 px / nf 0 px)
    ∧ fluxStr nf "fl" = Except.ok
        (if (∑ px, nf 0 px) = 0 then 0
         else Real.sqrt ((∑ px, nf 1 px) ^ 2 + (∑ px, nf 2 px) ^ 2)
            / ∑ px, nf 0 px)
    ∧ fluxStr nf "fc" = Except.ok
        (if (∑ px, nf 0 px) = 0 then 0
         else (∑ px, nf 3 px) / ∑ px, nf 0 px) := by
  refine ⟨?_, ?_, ?_, ?_⟩
  · simp only [frameStr]
    rw [if_neg (by decide), if_neg (by decide), if_neg (by decide),
      if_neg (by decide), if_neg (by decide), if_neg (by decide),
      if_pos (by decide)]
    congr 1
    funext px
    by_cases h : nf 0 px = 0
    · rw [if_pos h, if_pos h]
    · rw [if_neg h, if_neg h, if_neg h]
  · simp only [frameStr]
    rw [if_neg (by decide), if_neg (by decide), if_neg (by decide),
      if_neg (by decide), if_neg (by decide), if_neg (by decide),
      if_neg (by decide), if_pos (by decide)]
    congr 1
    funext px
    by_cases h : nf 0 px = 0
    · rw [if_pos h, if_pos h]
    · rw [if_neg h, if_neg h, if_neg h]
  · simp only [fluxStr]
    rw [if_neg (by decide), if_neg (by decide), if_neg (by decide),
      if_neg (by decide), if_neg (by decide), if_neg (by decide),
      if_pos (by decide)]
    by_cases h : (∑ px, nf 0 px) = 0
    · rw [if_pos h, if_pos h]
    · rw [if_neg h, if_neg h]
  · simp only [fluxStr]
    rw [if_neg (by decide), if_neg (by decide), if_neg (by decide),
      if_neg (by decide), if_neg (by decide), if_neg (by decide),
      if_neg (by decide), if_pos (by decide)]
    by_cases h : (∑ px, nf 0 px) = 0
    · rw [if_pos h, if_pos h]
    · rw [if_neg h, if_neg h]

/-! ### Coarse-grid helpers for `create_ray` -/

/-- Members of the coarse grid. -/
theorem mem_arange (z0 z1 step : ℝ) (i : ℕ) (hi : i < ⌈(z1 - z0) / step⌉₊) :
    z0 + (i : ℝ) * step ∈ arange z0 z1 step :=
  List.mem_map.mpr ⟨i, List.mem_range.mpr hi, rfl⟩

/-- The first coarse density sample is the density at `z0`. -/
theorem arange_map_headD (ne : ℝ → ℝ) (z0 z1 step : ℝ) (m : ℕ)
    (h : ⌈(z1 - z0) / step⌉₊ = m + 1) :
    ((arange z0 z1 step).map ne).headD 0 = ne z0 := by
  unfold arange
  rw [h, List.range_succ_eq_map]
  simp

/-- The last coarse density sample is the density at the last grid point. -/
theorem arange_map_getLastD (ne : ℝ → ℝ) (z0 z1 step : ℝ) (m : ℕ)
    (h : ⌈(z1 - z0) / step⌉₊ = m + 1) :
    ((arange z0 z1 step).map ne).getLastD 0 = ne (z0 + (m : ℝ) * step) := by
  unfold arange
  rw [h, List.range_succ, List.map_append, List.map_append]
  simp

/-! ### Claim theorems: the empty-ray terminal state (C3) -/

/-- C3: when no coarse sample along the ray exceeds the density cutoff,
`create_ray` returns normally with the two-sample empty ray whose derived
arrays `theta`, `B`, `psi` and distribution parameters `n_e`, `p` are
identically zero. -/
theorem empty_ray_c3 (ne : ℝ → ℝ) (cutoff : ℝ) (brentq : ℝ → ℝ → ℝ × Bool)
    (sampler : ℝ → ℝ → Ray) (radius x y : ℝ)
    (h : ∀ z ∈ arange (startZ x y) way_front_z delta_z, ne z ≤ cutoff) :
    createRay ne cutoff brentq sampler radius x y
      = Except.ok (mkZerosRay x y (linspace (startZ x y) way_front_z 2) radius)
    ∧ (mkZerosRay x y (linspace (startZ x y) way_front_z 2) radius).theta
        = List.replicate 2 0
    ∧ (mkZerosRay x y (linspace (startZ x y) way_front_z 2) radius).B
        = List.replicate 2 0
    ∧ (mkZerosRay x y (linspace (startZ x y) way_front_z 2) radius).psi
        = List.replicate 2 0
    ∧ (mkZerosRay x y (linspace (startZ x y) way_front_z 2) radius).n_e
        = List.replicate 2 0
    ∧ (mkZerosRay x y (linspace (startZ x y) way_front_z 2) radius).p
        = List.replicate 2 0 := by
  have hno : ¬ ∃ v ∈ (arange (startZ x y) way_front_z delta_z).map ne,
      v > cutoff := by
    rintro ⟨v, hv, hgt⟩
    obtain ⟨z, hz, rfl⟩ := List.mem_map.mp hv
    exact absurd hgt (not_lt.mpr (h z hz))
  have hlen : (linspace (startZ x y) way_front_z 2).length = 2 := by
    simp [linspace]
  refine ⟨?_, ?_, ?_, ?_, ?_, ?_⟩
  · simp only [createRay]
    rw [if_pos hno]
  · simp only [mkZerosRay]
    rw [hlen]
  · simp only [mkZerosRay]
    rw [hlen]
  · simp only [mkZerosRay]
    rw [hlen]
  · simp only [mkZerosRay]
    rw [hlen]
  · simp only [mkZerosRay]
    rw [hlen]

/-- Witness for C3: a pixel outside the disk with zero density everywhere. -/
theorem empty_ray_c3_witness :
    createRay (fun _ => 0) 1 (fun _ _ => (0, true))
        (fun _ _ => mkZerosRay 0 0 [] 1) 1 3 0
      = Except.ok (mkZerosRay 3 0 (linspace (startZ 3 0) way_front_z 2) 1) :=
  (empty_ray_c3 (fun _ => 0) 1 (fun _ _ => (0, true))
    (fun _ _ => mkZerosRay 0 0 [] 1) 1 3 0 (fun z _ => by norm_num)).1

/-! ### Claim theorems: fatal unconverged bound refinement (C4) -/

/-- C4: when the coarse search does find density above the cutoff but a
Brent bound refinement reports non-convergence, `create_ray` fails with the
fatal per-ray error carrying the root estimate and the inner bracket, and
never returns a ray.  The three conjuncts cover every failing case: an
unconverged start refinement; an unconverged end refinement with the start
refinement skipped (first coarse sample already above cutoff); and an
unconverged end refinement after a needed and converged start refinement. -/
theorem rootfind_error_c4 (ne : ℝ → ℝ) (cutoff : ℝ)
    (brentq : ℝ → ℝ → ℝ × Bool) (sampler : ℝ → ℝ → Ray) (radius x y : ℝ) :
    ((∃ v ∈ (arange (startZ x y) way_front_z delta_z).map ne, v > cutoff) →
      ((arange (startZ x y) way_front_z delta_z).map ne).headD 0 < cutoff →
      (brentq (startZ x y)
          (arrMin (aboveCutoff ne cutoff
            (arange (startZ x y) way_front_z delta_z)))).2 = false →
      createRay ne cutoff brentq sampler radius x y
        = Except.error (RayError.noStartPoint
            (brentq (startZ x y)
              (arrMin (aboveCutoff ne cutoff
                (arange (startZ x y) way_front_z delta_z)))).1
            (arrMin (aboveCutoff ne cutoff
              (arange (startZ x y) way_front_z delta_z)))))
    ∧ ((∃ v ∈ (arange (startZ x y) way_front_z delta_z).map ne, v > cutoff) →
      ¬ ((arange (startZ x y) way_front_z delta_z).map ne).headD 0 < cutoff →
      ((arange (startZ x y) way_front_z delta_z).map ne).getLastD 0 < cutoff →
      (brentq way_front_z
          (arrMax (aboveCutoff ne cutoff
            (arange (startZ x y) way_front_z delta_z)))).2 = false →
      createRay ne cutoff brentq sampler radius x y
        = Except.error (RayError.noEndPoint
            (brentq way_front_z
              (arrMax (aboveCutoff ne cutoff
                (arange (startZ x y) way_front_z delta_z)))).1
            (arrMax (aboveCutoff ne cutoff
              (arange (startZ x y) way_front_z delta_z)))))
    ∧ ((∃ v ∈ (arange (startZ x y) way_front_z delta_z).map ne, v > cutoff) →
      ((arange (startZ x y) way_front_z delta_z).map ne).headD 0 < cutoff →
      (brentq (startZ x y)
          (arrMin (aboveCutoff ne cutoff
            (arange (startZ x y) way_front_z delta_z)))).2 = true →
      ((arange (startZ x y) way_front_z delta_z).map ne).getLastD 0 < cutoff →
      (brentq way_front_z
          (arrMax (aboveCutoff ne cutoff
            (arange (startZ x y) way_front_z delta_z)))).2 = false →
      createRay ne cutoff brentq sampler radius x y
        = Except.error (RayError.noEndPoint
            (brentq way_front_z
              (arrMax (aboveCutoff ne cutoff
                (arange (startZ x y) way_front_z delta_z)))).1
            (arrMax (aboveCutoff ne cutoff
              (arange (startZ x y) way_front_z delta_z))))) := by
  refine ⟨?_, ?_, ?_⟩
  · intro h1 h2 h3
    simp only [createRay]
    rw [if_neg (not_not_intro h1), if_pos h2, if_neg (by simp [h3])]
    rfl
  · intro h1 h2 h3 h4
    simp only [createRay]
    rw [if_neg (not_not_intro h1), if_neg h2, if_pos h3, if_neg (by simp [h4])]
    rfl
  · intro h1 h2 hc h3 h4
    simp only [createRay]
    rw [if_neg (not_not_intro h1), if_pos h2, if_pos hc, if_pos h3,
      if_neg (by simp [h4])]
    rfl

/-- Witness for C4: concrete density profiles triggering the start-bound
failure, the end-bound failure with the start refinement skipped, and the
end-bound failure after a converged start refinement (the last with a root
finder that converges on the start call and fails on the end call). -/
theorem rootfind_error_c4_witness :
    (∃ e, createRay (fun z => if z = 0 then (2 : ℝ) else 0) 1
        (fun _ _ => (0, false)) (fun _ _ => mkZerosRay 0 0 [] 1) 1 3 0
      = Except.error e)
    ∧ (∃ e, createRay (fun z => if z = way_back_z then (2 : ℝ) else 0) 1
        (fun _ _ => (0, false)) (fun _ _ => mkZerosRay 0 0 [] 1) 1 3 0
      = Except.error e)
    ∧ ∃ e, createRay (fun z => if z = 0 then (2 : ℝ) else 0) 1
        (fun a _ => (0, if a < 0 then true else false))
        (fun _ _ => mkZerosRay 0 0 [] 1) 1 3 0
      = Except.error e := by
  have hsz : startZ 3 0 = way_back_z := by
    unfold startZ
    rw [if_neg (by norm_num)]
  have hceil : ⌈(way_front_z - startZ 3 0) / delta_z⌉₊ = 29 + 1 := by
    rw [hsz]
    norm_num [way_back_z, way_front_z, delta_z]
  have hex : ∃ v ∈ (arange (startZ 3 0) way_front_z delta_z).map
      (fun z => if z = 0 then (2 : ℝ) else 0), v > 1 := by
    refine ⟨(fun z => if z = 0 then (2 : ℝ) else 0)
      (startZ 3 0 + (15 : ℕ) * delta_z),
      List.mem_map.mpr ⟨startZ 3 0 + (15 : ℕ) * delta_z,
        mem_arange _ _ _ 15 (by rw [hceil]; norm_num), rfl⟩, ?_⟩
    rw [hsz]
    norm_num [way_back_z, delta_z]
  have hhead : ((arange (startZ 3 0) way_front_z delta_z).map
      (fun z => if z = 0 then (2 : ℝ) else 0)).headD 0 < 1 := by
    rw [arange_map_headD _ _ _ _ 29 hceil, hsz]
    norm_num [way_back_z]
  have hlast : ((arange (startZ 3 0) way_front_z delta_z).map
      (fun z => if z = 0 then (2 : ℝ) else 0)).getLastD 0 < 1 := by
    rw [arange_map_getLastD _ _ _ _ 29 hceil, hsz]
    norm_num [way_back_z, delta_z]
  refine ⟨?_, ?_, ?_⟩
  · exact ⟨_, (rootfind_error_c4 (fun z => if z = 0 then (2 : ℝ) else 0) 1
      (fun _ _ => (0, false)) (fun _ _ => mkZerosRay 0 0 [] 1) 1 3 0).1
      hex hhead rfl⟩
  · refine ⟨_, (rootfind_error_c4 (fun z => if z = way_back_z then (2 : ℝ) else 0)
      1 (fun _ _ => (0, false)) (fun _ _ => mkZerosRay 0 0 [] 1) 1 3 0).2.1
      ?_ ?_ ?_ rfl⟩
    · refine ⟨(fun z => if z = way_back_z then (2 : ℝ) else 0)
        (startZ 3 0 + (0 : ℕ) * delta_z),
        List.mem_map.mpr ⟨startZ 3 0 + (0 : ℕ) * delta_z,
          mem_arange _ _ _ 0 (by rw [hceil]; norm_num), rfl⟩, ?_⟩
      rw [hsz]
      norm_num
    · rw [arange_map_headD _ _ _ _ 29 hceil, hsz]
      norm_num
    · rw [arange_map_getLastD _ _ _ _ 29 hceil, hsz]
      norm_num [way_back_z, delta_z]
  · refine ⟨_, (rootfind_error_c4 (fun z => if z = 0 then (2 : ℝ) else 0) 1
      (fun a _ => (0, if a < 0 then true else false))
      (fun _ _ => mkZerosRay 0 0 [] 1) 1 3 0).2.2
      hex hhead ?_ hlast ?_⟩
    · show (if startZ 3 0 < 0 then true else false) = true
      rw [hsz]
      norm_num [way_back_z]
    · show (if way_front_z < 0 then true else false) = false
      norm_num [way_front_z]

end Vernon
